import Mathlib

/-
Verification of the pdbx parsing core of MolecularNodes
(molecularnodes/io/parse/pdbx.py).

Strings are modelled as List Char.  A Python dict built from a sequence
of key/value pairs (dict(zip(ks, vs)), or repeated d[k] = v assignments)
is modelled by the pair sequence itself, with lookup returning the value
of the LAST pair carrying the key: later assignments overwrite earlier
ones.  Matrix entries are modelled as rationals; the source only moves
the float column values around, it performs no arithmetic on them.
-/

set_option autoImplicit false

namespace MolecularNodes

/-- Python str.split with a single-character separator: the (possibly
empty) pieces between occurrences of the separator. -/
def splitOnChar (c : Char) : List Char → List (List Char)
  | [] => [[]]
  | x :: xs =>
    match splitOnChar c xs with
    | [] => [[x]]
    | y :: ys => if x = c then [] :: y :: ys else (x :: y) :: ys

/-- Join pieces with the separator, the right inverse of splitOnChar. -/
def joinSep (c : Char) : List (List Char) → List Char
  | [] => []
  | [p] => p
  | p :: ps => p ++ c :: joinSep c ps

/-- The character set Python strip("()") removes from both ends. -/
def isParen (c : Char) : Bool := c = '(' || c = ')'

/-- Python str.strip("()"). -/
def stripParens (s : List Char) : List Char :=
  ((s.dropWhile isParen).reverse.dropWhile isParen).reverse

/-- Decimal accumulator over a digit string; none at the first non-digit. -/
def digitsAux : Nat → List Char → Option Nat
  | acc, [] => some acc
  | acc, c :: cs => if c.isDigit then digitsAux (acc * 10 + (c.toNat - 48)) cs else none

/-- Value of a nonempty all-digit string, none otherwise. -/
def digitsToNat : List Char → Option Nat
  | [] => none
  | c :: cs => digitsAux 0 (c :: cs)

/-- Model of Python int(str) on the token shapes this parser meets: an
optional sign followed by decimal digits; anything else raises
ValueError (none here). -/
def pyInt (s : List Char) : Option Int :=
  if s.head? = some '+' then (digitsToNat s.tail).map (fun n => (n : Int))
  else if s.head? = some '-' then (digitsToNat s.tail).map (fun n => -(n : Int))
  else (digitsToNat s).map (fun n => (n : Int))

/-- Python range(start, stop + 1) collected into a list: the integers
from start to stop inclusive, empty when start > stop. -/
def intRange (start stop : Int) : List Int :=
  (List.range (stop + 1 - start).toNat).map (fun (k : Nat) => start + (k : Int))

/-- Lookup in a Python dict assembled from a pair sequence: the value of
the last pair carrying the key. -/
def pyDictFind {α β : Type} [DecidableEq α] (pairs : List (α × β)) (k : α) : Option β :=
  (pairs.reverse.find? (fun p => decide (p.1 = k))).map (fun p => p.2)

/-- Python dict assignment d[k] = v on the pair-list representation kept
key-unique: replace the key's pair in place, else append. -/
def pyDictSet {α β : Type} [DecidableEq α] (d : List (α × β)) (k : α) (v : β) :
    List (α × β) :=
  if d.any (fun p => decide (p.1 = k)) then
    d.map (fun p => if p.1 = k then (k, v) else p)
  else d ++ [(k, v)]

/-- Errors the assembly parsing can surface: ValueError from int() or
tuple unpacking (the spec's ParseError), and KeyError from an undefined
operator id (the spec's FormatError). -/
inductive PErr where
  | parseError : PErr
  | keyError : PErr
deriving DecidableEq, Repr

/-- One comma-separated group of _parse_opers: with no dash it must be a
bare integer; otherwise parentheses are stripped, the group is split on
dashes and must yield exactly two integers, expanded as an inclusive
range (empty when start > stop, mirroring Python range). -/
def parse_group (g : List Char) : Except PErr (List Int) :=
  if g.contains '-' then
    match (splitOnChar '-' (stripParens g)).mapM pyInt with
    | some [start, stop] => .ok (intRange start stop)
    | _ => .error .parseError
  else
    match pyInt g with
    | some n => .ok [n]
    | none => .error .parseError

/-- The op_ids accumulation loop of _parse_opers over the comma groups:
expansions are concatenated in input order, the first failing group
aborts the whole parse. -/
def parse_groups : List (List Char) → Except PErr (List Int)
  | [] => .ok []
  | g :: gs =>
    match parse_group g, parse_groups gs with
    | .ok xs, .ok ys => .ok (xs ++ ys)
    | .error e, _ => .error e
    | _, .error e => .error e

/-- _parse_opers. -/
def parse_opers (oper : List Char) : Except PErr (List Int) :=
  parse_groups (splitOnChar ',' oper)

/-- A well-formed operator-expression segment as the spec describes
them: a bare integer token, or a parenthesized start-stop range; the
integers are carried as their digit strings. -/
inductive Seg where
  | int : List Char → Seg
  | range : List Char → List Char → Seg

/-- A nonempty all-digit token. -/
def digitStr (s : List Char) : Bool := !s.isEmpty && s.all Char.isDigit

/-- The concrete text of a segment. -/
def Seg.render : Seg → List Char
  | .int s => s
  | .range s t => '(' :: (s ++ '-' :: (t ++ [')']))

/-- Spec well-formedness: digit tokens, and start ≤ stop for a range. -/
def Seg.wf : Seg → Prop
  | .int s => digitStr s = true
  | .range s t => digitStr s = true ∧ digitStr t = true ∧
      (pyInt s).getD 0 ≤ (pyInt t).getD 0

/-- The integer sequence a well-formed segment denotes. -/
def Seg.expand : Seg → List Int
  | .int s => [(pyInt s).getD 0]
  | .range s t => intRange ((pyInt s).getD 0) ((pyInt t).getD 0)

/-- The (token, entity index) pair sequence of _get_entity_id: the
entity_poly pdbx_strand_id strings are enumerated and each is split on
commas, appending one (chain token, entity index) pair per token. -/
def entity_pairs_from (i : Int) : List (List Char) → List (List Char × Int)
  | [] => []
  | s :: rest => (splitOnChar ',' s).map (fun tok => (tok, i)) ++ entity_pairs_from (i + 1) rest

/-- entity_lookup = dict(zip(chains, idx)). -/
def entity_pairs (chain_ids : List (List Char)) : List (List Char × Int) :=
  entity_pairs_from 0 chain_ids

/-- _get_entity_id: entity_lookup.get(chain, -1) vectorized over the
atom chain column. -/
def get_entity_id (chain_ids : List (List Char)) (atom_chains : List (List Char)) :
    List Int :=
  atom_chains.map (fun c => (pyDictFind (entity_pairs chain_ids) c).getD (-1))

/-- One combined secondary-structure range row after the sheet category
has been appended to struct_conf: begin/end residue, chain, and the
integer class from _ss_label_to_int. -/
structure SSRow where
  start : Int
  stop : Int
  chain : List Char
  labelInt : Int
deriving DecidableEq, Repr

/-- Python substring containment (pat in s). -/
def hasSub (pat : List Char) : List Char → Bool
  | [] => pat.isEmpty
  | c :: cs => pat.isPrefixOf (c :: cs) || hasSub pat cs

/-- _ss_label_to_int. -/
def ss_label_to_int (label : List Char) : Int :=
  if hasSub ('H' :: 'E' :: 'L' :: 'X' :: []) label then 1
  else if hasSub ('S' :: 'T' :: 'R' :: 'N' :: []) label then 2
  else 3

/-- Whether a range row covers a residue. -/
def coversB (row : SSRow) (r : Int) : Bool :=
  decide (row.start ≤ r) && decide (r ≤ row.stop)

/-- np.arange(start, end + 1) paired with the class column (the source's
arr[:, 1] = 3 write is dead, immediately overwritten by the class). -/
def expandRange (row : SSRow) : List (Int × Int) :=
  (intRange row.start row.stop).map (fun r => (r, row.labelInt))

/-- The residue → class dict the source builds for one chain: that
chain's rows (the chain == chains mask keeps declaration order) expanded
and vstacked, then collected into a dict, so later rows overwrite
earlier ones at shared residues. -/
def chainPairs (rows : List SSRow) (c : List Char) : List (Int × Int) :=
  ((rows.filter (fun row => decide (row.chain = c))).map expandRange).flatten

/-- Per-atom lookup: lookup[chain].get(res, 3), with the KeyError of a
chain absent from the lookup dict caught and mapped to 0.  The lookup
dict has a key exactly for every chain occurring in the range rows
(np.unique of the chain column). -/
def ss_for_atom (rows : List SSRow) (c : List Char) (r : Int) : Int :=
  if rows.any (fun row => decide (row.chain = c)) then
    match pyDictFind (chainPairs rows c) r with
    | some l => l
    | none => 3
  else 0

/-- The secondary_structure array: the per-atom lookup over the chain
and residue columns, then forced to 0 wherever the external amino-acid
predicate (struc.filter_amino_acids) is false. -/
def secondary_structure (rows : List SSRow) (atoms : List (List Char × Int))
    (aa : List Bool) : List Int :=
  (atoms.zip aa).map (fun p => if p.2 then ss_for_atom rows p.1.1 p.1.2 else 0)

/-- The columns _get_secondary_structure reads from struct_conf. -/
structure ConfTable where
  beg_auth_seq_id : List Int
  end_auth_seq_id : List Int
  end_auth_asym_id : List (List Char)
  id : List (List Char)

/-- The columns read from struct_sheet_range; idLen is len(sheet['id']),
which feeds only the STRN label repeat. -/
structure SheetTable where
  beg_auth_seq_id : List Int
  end_auth_seq_id : List Int
  end_auth_asym_id : List (List Char)
  idLen : Nat

/-- Zip the four parallel range columns into rows. -/
def zipRows : List Int → List Int → List (List Char) → List Int → List SSRow
  | s :: ss, e :: es, c :: cs, l :: ls => ⟨s, e, c, l⟩ :: zipRows ss es cs ls
  | _, _, _, _ => []

/-- The combined range rows _get_secondary_structure assembles: the
struct_conf columns with the sheet columns appended, sheet rows
labelled with the literal STRN, and every label classified by
_ss_label_to_int. -/
def ss_rows (conf : ConfTable) (sheet : Option SheetTable) : List SSRow :=
  let starts := conf.beg_auth_seq_id ++
    (match sheet with | some s => s.beg_auth_seq_id | none => [])
  let ends := conf.end_auth_seq_id ++
    (match sheet with | some s => s.end_auth_seq_id | none => [])
  let chains := conf.end_auth_asym_id ++
    (match sheet with | some s => s.end_auth_asym_id | none => [])
  let labels := conf.id ++
    (match sheet with
     | some s => List.replicate s.idLen ('S' :: 'T' :: 'R' :: 'N' :: [])
     | none => [])
  zipRows starts ends chains (labels.map ss_label_to_int)

/-- A 4×4 transformation matrix. -/
abbrev Mat4 := Fin 4 → Fin 4 → ℚ

/-- _extract_matrices: the twelve per-axis rotation/translation columns
are scattered into the top three rows of each 4×4 matrix, column
4*r + c of the twelve holding entry (r, c).  The numpy array is created
with np.empty, so entries never written keep whatever content the
allocation happened to contain: that uninitialized content is the empty
argument here.  The number of matrices is the length of the first
column. -/
def extract_matrices (cols : Fin 12 → List ℚ) (empty : Nat → Mat4) : List Mat4 :=
  (List.range (cols 0).length).map (fun k r c =>
    if h : (r : Nat) < 3 then
      (cols ⟨4 * (r : Nat) + (c : Nat), by have hc := c.isLt; omega⟩).getD k 0
    else empty k r c)

/-- mat_lookup = dict(zip(mat_ids, range(len(mat_ids)))). -/
def mat_lookup (ids : List Int) (i : Int) : Option Nat :=
  pyDictFind (ids.zip (List.range ids.length)) i

/-- One row of the pdbx_struct_assembly_gen category. -/
structure GenRow where
  assembly_id : Int
  oper_expression : List Char
  asym_id_list : List Char

/-- The trans list one generation row contributes: its operator
expression expanded by _parse_opers, each id resolved through
mat_lookup (KeyError when undefined) and paired with the row's
comma-split chain list.  matrices[k] is modelled with getD; in
_assemblies the matrix list and the id list always have equal length,
so the lookup indices produced by mat_lookup are in range. -/
def row_trans (ids : List Int) (mats : List Mat4) (row : GenRow) :
    Except PErr (List (List (List Char) × Mat4)) :=
  match parse_opers row.oper_expression with
  | .error e => .error e
  | .ok ops =>
    ops.mapM (fun i =>
      match mat_lookup ids i with
      | some k => Except.ok (splitOnChar ',' row.asym_id_list, mats.getD k (fun _ _ => 0))
      | none => Except.error PErr.keyError)

/-- The assembly_dic loop of _assemblies: each row's trans list is
assigned to key assembly_id (str(idx) in the source; int → str is
injective, so the key is modelled by the int itself). -/
def assembliesAux (ids : List Int) (mats : List Mat4)
    (dic : List (Int × List (List (List Char) × Mat4))) :
    List GenRow → Except PErr (List (Int × List (List (List Char) × Mat4)))
  | [] => .ok dic
  | r :: rs =>
    match row_trans ids mats r with
    | .error e => .error e
    | .ok tr => assembliesAux ids mats (pyDictSet dic r.assembly_id tr) rs

/-- _assemblies, starting from the empty dict. -/
def assemblies (ids : List Int) (mats : List Mat4) (rows : List GenRow) :
    Except PErr (List (Int × List (List (List Char) × Mat4))) :=
  assembliesAux ids mats [] rows

/-- The categories of the file block the annotation code touches; none
models a category or column whose access raises KeyError. -/
structure Block where
  struct_conf : Option ConfTable
  struct_sheet_range : Option SheetTable
  entity_poly_strand_id : Option (List (List Char))

/-- The base atom array handed back by the external extractor, together
with the external amino-acid predicate evaluated on it. -/
structure AtomArr where
  chain_id : List (List Char)
  res_id : List Int
  aminoAcid : List Bool

/-- _get_secondary_structure as a fallible call: if not conf it raises
KeyError; otherwise it computes the per-atom labels. -/
def get_secondary_structure (block : Block) (arr : AtomArr) : Except PErr (List Int) :=
  match block.struct_conf with
  | none => .error .keyError
  | some conf =>
    .ok (secondary_structure (ss_rows conf block.struct_sheet_range)
      (arr.chain_id.zip arr.res_id) arr.aminoAcid)

/-- _get_entity_id as a fallible call: reading
block['entity_poly']['pdbx_strand_id'] raises KeyError when the
category or column is absent. -/
def get_entity_id_of_block (block : Block) (arr : AtomArr) : Except PErr (List Int) :=
  match block.entity_poly_strand_id with
  | none => .error .keyError
  | some groups => .ok (get_entity_id groups arr.chain_id)

/-- The enriched array get_structure returns: the base array plus the
optional annotation columns. -/
structure AnnotatedArr where
  base : AtomArr
  sec_struct : Option (List Int)
  entity_id : Option (List Int)

/-- get_structure: each annotation is attached inside its own
try/except KeyError; on failure a warning is recorded and that column
is omitted.  The bond-inference fallback is an external collaborator
and is not modelled. -/
def get_structure (block : Block) (arr : AtomArr) : AnnotatedArr × List String :=
  let ss := get_secondary_structure block arr
  let ent := get_entity_id_of_block block arr
  (⟨arr,
    match ss with | .ok v => some v | .error _ => none,
    match ent with | .ok v => some v | .error _ => none⟩,
   (match ss with | .ok _ => [] | .error _ => ["No secondary structure information."])
    ++ (match ent with | .ok _ => [] | .error _ => ["No entity ID information"]))

/-! ### Lemmas: splitting and joining -/

theorem splitOnChar_cons (c x : Char) (xs : List Char) :
    splitOnChar c (x :: xs) =
      match splitOnChar c xs with
      | [] => [[x]]
      | y :: ys => if x = c then [] :: y :: ys else (x :: y) :: ys := rfl

theorem splitOnChar_ne_nil (c : Char) (s : List Char) : splitOnChar c s ≠ [] := by
  cases s with
  | nil => simp [splitOnChar]
  | cons x xs =>
    rw [splitOnChar_cons]
    rcases h : splitOnChar c xs with _ | ⟨y, ys⟩
    · simp
    · dsimp only
      split <;> simp

theorem splitOnChar_not_mem {c : Char} {s : List Char} (h : c ∉ s) :
    splitOnChar c s = [s] := by
  induction s with
  | nil => rfl
  | cons x xs ih =>
    have hx : ¬ x = c := fun he => h (by simp [he])
    have hxs : c ∉ xs := fun hm => h (by simp [hm])
    rw [splitOnChar_cons, ih hxs]
    dsimp only
    simp [hx]

theorem splitOnChar_append {c : Char} {p q : List Char} (h : c ∉ p) :
    splitOnChar c (p ++ c :: q) = p :: splitOnChar c q := by
  induction p with
  | nil =>
    rw [List.nil_append, splitOnChar_cons]
    rcases hq : splitOnChar c q with _ | ⟨y, ys⟩
    · exact absurd hq (splitOnChar_ne_nil c q)
    · simp
  | cons x xs ih =>
    have hx : ¬ x = c := fun he => h (by simp [he])
    have hxs : c ∉ xs := fun hm => h (by simp [hm])
    rw [List.cons_append, splitOnChar_cons, ih hxs]
    dsimp only
    simp [hx]

theorem splitOnChar_joinSep {c : Char} (ps : List (List Char)) (hne : ps ≠ [])
    (h : ∀ p ∈ ps, c ∉ p) : splitOnChar c (joinSep c ps) = ps := by
  induction ps with
  | nil => exact absurd rfl hne
  | cons p rest ih =>
    cases rest with
    | nil => exact splitOnChar_not_mem (h p (by simp))
    | cons q qs =>
      have hj : joinSep c (p :: q :: qs) = p ++ c :: joinSep c (q :: qs) := rfl
      rw [hj, splitOnChar_append (h p (by simp))]
      rw [ih (by simp) (fun r hr => h r (by simp [hr]))]

/-! ### Lemmas: digit strings and pyInt -/

theorem digitStr_all {s : List Char} (h : digitStr s = true) :
    ∀ d ∈ s, d.isDigit = true := by
  have := (Bool.and_eq_true _ _).mp h
  simpa [List.all_eq_true] using this.2

theorem digitStr_ne_nil {s : List Char} (h : digitStr s = true) : s ≠ [] := by
  intro he
  rw [he] at h
  simp [digitStr] at h

theorem not_mem_of_digitStr {s : List Char} (h : digitStr s = true) {c : Char}
    (hc : c.isDigit = false) : c ∉ s := by
  intro hm
  rw [digitStr_all h c hm] at hc
  cases hc

theorem digitsAux_isSome (s : List Char) (h : ∀ d ∈ s, d.isDigit = true) :
    ∀ acc, ∃ n, digitsAux acc s = some n := by
  induction s with
  | nil => exact fun acc => ⟨acc, rfl⟩
  | cons d ds ih =>
    intro acc
    have hd := h d (by simp)
    have := ih (fun x hx => h x (by simp [hx])) (acc * 10 + (d.toNat - 48))
    simpa [digitsAux, hd] using this

theorem pyInt_of_digitStr {s : List Char} (h : digitStr s = true) :
    ∃ n : Nat, pyInt s = some (n : Int) := by
  rcases s with _ | ⟨d, ds⟩
  · exact absurd rfl (digitStr_ne_nil h)
  · have hall := digitStr_all h
    have hd := hall d (by simp)
    have hplus : d ≠ '+' := by intro he; rw [he] at hd; exact absurd hd (by decide)
    have hminus : d ≠ '-' := by intro he; rw [he] at hd; exact absurd hd (by decide)
    obtain ⟨n, hn⟩ := digitsAux_isSome (d :: ds) hall 0
    refine ⟨n, ?_⟩
    simp [pyInt, hplus, hminus, digitsToNat, hn]

/-! ### Lemmas: parse_group on rendered segments -/

theorem parse_group_int {s : List Char} (h : digitStr s = true) :
    parse_group s = .ok [(pyInt s).getD 0] := by
  obtain ⟨n, hn⟩ := pyInt_of_digitStr h
  have hmem : ('-' : Char) ∉ s := not_mem_of_digitStr h (by decide)
  unfold parse_group
  simp [hn, hmem]

theorem mapM_pyInt_pair {s t : List Char} {a b : Int} (ha : pyInt s = some a)
    (hb : pyInt t = some b) : ([s, t].mapM pyInt) = some [a, b] := by
  simp [List.mapM, List.mapM.loop, ha, hb]

theorem isParen_false_of_digit {c : Char} (h : c.isDigit = true) : isParen c = false := by
  have h1 : c ≠ '(' := by intro he; rw [he] at h; exact absurd h (by decide)
  have h2 : c ≠ ')' := by intro he; rw [he] at h; exact absurd h (by decide)
  simp [isParen, h1, h2]

theorem stripParens_render {s t : List Char} (hs : digitStr s = true)
    (ht : digitStr t = true) :
    stripParens ('(' :: (s ++ '-' :: (t ++ [')']))) = s ++ '-' :: t := by
  obtain ⟨c, s', rfl⟩ : ∃ c s', s = c :: s' := by
    rcases s with _ | ⟨c, s'⟩
    · exact absurd rfl (digitStr_ne_nil hs)
    · exact ⟨c, s', rfl⟩
  obtain ⟨l, d, rfl⟩ : ∃ l d, t = l ++ [d] := by
    rcases t.eq_nil_or_concat with h | ⟨l, d, h⟩
    · exact absurd h (digitStr_ne_nil ht)
    · exact ⟨l, d, by simpa [List.concat_eq_append] using h⟩
  have hc : isParen c = false := isParen_false_of_digit (digitStr_all hs c (by simp))
  have hd : isParen d = false := isParen_false_of_digit (digitStr_all ht d (by simp))
  have e1 : ('(' :: ((c :: s') ++ '-' :: ((l ++ [d]) ++ [')']))) =
      '(' :: c :: (s' ++ '-' :: (l ++ [d] ++ [')'])) := by simp
  rw [stripParens, e1, List.dropWhile_cons]
  simp only [show isParen '(' = true from by decide, if_true]
  rw [List.dropWhile_cons, hc]
  simp only [Bool.false_eq_true, if_false]
  have e2 : (c :: (s' ++ '-' :: (l ++ [d] ++ [')']))) =
      (c :: (s' ++ '-' :: (l ++ [d]))) ++ [')'] := by simp
  rw [e2, List.reverse_append]
  simp only [List.reverse_singleton, List.singleton_append]
  rw [List.dropWhile_cons]
  simp only [show isParen ')' = true from by decide, if_true]
  have e3 : (c :: (s' ++ '-' :: (l ++ [d]))).reverse =
      d :: ((c :: (s' ++ '-' :: l)).reverse) := by simp
  rw [e3, List.dropWhile_cons, hd]
  simp only [Bool.false_eq_true, if_false]
  simp

theorem parse_group_range {s t : List Char} (hs : digitStr s = true)
    (ht : digitStr t = true) :
    parse_group (Seg.render (.range s t)) =
      .ok (intRange ((pyInt s).getD 0) ((pyInt t).getD 0)) := by
  obtain ⟨a, ha⟩ := pyInt_of_digitStr hs
  obtain ⟨b, hb⟩ := pyInt_of_digitStr ht
  have hdash : '-' ∈ Seg.render (.range s t) := by simp [Seg.render]
  have hstrip : stripParens (Seg.render (.range s t)) = s ++ '-' :: t :=
    stripParens_render hs ht
  have hsplit : splitOnChar '-' (s ++ '-' :: t) = [s, t] := by
    rw [splitOnChar_append (not_mem_of_digitStr hs (by decide))]
    rw [splitOnChar_not_mem (not_mem_of_digitStr ht (by decide))]
  have hmap := mapM_pyInt_pair ha hb
  unfold parse_group
  rw [hstrip, hsplit, hmap]
  simp [hdash, ha, hb]

theorem parse_group_render {s : Seg} (h : s.wf) :
    parse_group s.render = .ok s.expand := by
  cases s with
  | int s => exact parse_group_int h
  | range s t => exact parse_group_range h.1 h.2.1

theorem comma_not_mem_render {s : Seg} (h : s.wf) : ',' ∉ s.render := by
  cases s with
  | int s => exact not_mem_of_digitStr h (by decide)
  | range s t =>
    have hs' : ',' ∉ s := not_mem_of_digitStr h.1 (by decide)
    have ht' : ',' ∉ t := not_mem_of_digitStr h.2.1 (by decide)
    intro hm
    rcases List.mem_cons.mp hm with h1 | h1
    · exact absurd h1 (by decide)
    rcases List.mem_append.mp h1 with h2 | h2
    · exact hs' h2
    rcases List.mem_cons.mp h2 with h3 | h3
    · exact absurd h3 (by decide)
    rcases List.mem_append.mp h3 with h4 | h4
    · exact ht' h4
    · exact absurd (List.mem_singleton.mp h4) (by decide)

theorem render_ne_nil (s : Seg) (h : s.wf) : s.render ≠ [] := by
  cases s with
  | int s => exact digitStr_ne_nil h
  | range s t => simp [Seg.render]

theorem parse_groups_render (segs : List Seg) (h : ∀ s ∈ segs, s.wf) :
    parse_groups (segs.map Seg.render) = .ok ((segs.map Seg.expand).flatten) := by
  induction segs with
  | nil => rfl
  | cons s rest ih =>
    have hs := parse_group_render (h s (by simp))
    have hrest := ih (fun x hx => h x (by simp [hx]))
    simp only [List.map_cons, parse_groups, hs, hrest, List.flatten_cons]

instance (s : Seg) : Decidable s.wf := by
  cases s with
  | int a => exact inferInstanceAs (Decidable (digitStr a = true))
  | range a b =>
    exact inferInstanceAs
      (Decidable (digitStr a = true ∧ digitStr b = true ∧
        (pyInt a).getD 0 ≤ (pyInt b).getD 0))

/-- C3: For every well-formed operator expression — a nonempty
comma-separated list of segments, each either a bare integer or a
parenthesized inclusive start-stop range with start ≤ stop — the parser
succeeds and returns the integers in input order, with each range
expanded ascending (Seg.expand produces the ascending run from start to
stop). -/
theorem C3_parse_opers_wellformed (segs : List Seg) (hne : segs ≠ [])
    (hwf : ∀ s ∈ segs, s.wf) :
    parse_opers (joinSep ',' (segs.map Seg.render)) =
      .ok ((segs.map Seg.expand).flatten) := by
  unfold parse_opers
  rw [splitOnChar_joinSep (segs.map Seg.render) (by simpa using hne)
    (fun p hp => by
      obtain ⟨s, hs, rfl⟩ := List.mem_map.mp hp
      exact comma_not_mem_render (hwf s hs))]
  exact parse_groups_render segs hwf

/-- Witness for C3 at the spec's two examples: "1,3,(5-8)" parses to
[1,3,5,6,7,8] and "(2-2)" parses to [2]. -/
theorem C3_parse_opers_wellformed_witness :
    parse_opers ("1,3,(5-8)".toList) = .ok [1, 3, 5, 6, 7, 8] ∧
    parse_opers ("(2-2)".toList) = .ok [2] := by
  constructor
  · have h := C3_parse_opers_wellformed
      [Seg.int ['1'], Seg.int ['3'], Seg.range ['5'] ['8']] (by simp) (by decide)
    rw [show joinSep ','
        ([Seg.int ['1'], Seg.int ['3'], Seg.range ['5'] ['8']].map Seg.render) =
        "1,3,(5-8)".toList from by decide] at h
    rw [show (([Seg.int ['1'], Seg.int ['3'],
        Seg.range ['5'] ['8']].map Seg.expand).flatten : List Int) =
        [1, 3, 5, 6, 7, 8] from by decide] at h
    exact h
  · have h := C3_parse_opers_wellformed [Seg.range ['2'] ['2']] (by simp) (by decide)
    rw [show joinSep ',' ([Seg.range ['2'] ['2']].map Seg.render) =
        "(2-2)".toList from by decide] at h
    rw [show (([Seg.range ['2'] ['2']].map Seg.expand).flatten : List Int) =
        [2] from by decide] at h
    exact h

/-- A segment the code accepts as a bare integer: no dash and int()
succeeds on it. -/
def isBareIntSeg (g : List Char) : Bool := !(g.contains '-') && (pyInt g).isSome

/-- A segment the code accepts as a range: it has a dash, and stripping
parentheses then splitting on dashes yields exactly two integers. -/
def isRangeSeg (g : List Char) : Bool :=
  g.contains '-' &&
    match (splitOnChar '-' (stripParens g)).mapM pyInt with
    | some [_, _] => true
    | _ => false

theorem parse_group_error_eq {g : List Char} {e : PErr}
    (h : parse_group g = .error e) : e = PErr.parseError := by
  unfold parse_group at h
  split at h
  · split at h <;> simp_all
  · split at h <;> simp_all

theorem parse_group_error_of_invalid {g : List Char}
    (h1 : isBareIntSeg g = false) (h2 : isRangeSeg g = false) :
    parse_group g = .error PErr.parseError := by
  unfold parse_group
  cases hc : g.contains '-' with
  | true =>
    simp only [hc, if_true]
    unfold isRangeSeg at h2
    rw [hc] at h2
    simp only [Bool.true_and] at h2
    split at h2
    · cases h2
    · rfl
  | false =>
    simp only [hc, Bool.false_eq_true, if_false]
    unfold isBareIntSeg at h1
    rw [hc] at h1
    simp only [Bool.not_false, Bool.true_and] at h1
    cases hp : pyInt g with
    | none => rfl
    | some n => rw [hp] at h1; cases h1

theorem parse_groups_error {gs : List (List Char)} {g : List Char} (hg : g ∈ gs)
    (he : parse_group g = .error PErr.parseError) :
    parse_groups gs = .error PErr.parseError := by
  induction gs with
  | nil => cases hg
  | cons x xs ih =>
    rcases List.mem_cons.mp hg with rfl | hmem
    · unfold parse_groups
      rw [he]
      cases parse_groups xs with
      | ok v => rfl
      | error e => rfl
    · unfold parse_groups
      rw [ih hmem]
      cases hx : parse_group x with
      | ok v => rfl
      | error e => rw [parse_group_error_eq hx]

/-- A range with start > stop expands to the empty list (Python
range(start, stop + 1) is empty). -/
theorem intRange_eq_nil {a b : Int} (h : b < a) : intRange a b = [] := by
  unfold intRange
  rw [show (b + 1 - a).toNat = 0 from by omega]
  rfl

/-- C2 amended: the parser fails with a ParseError when a
comma-separated segment is neither a valid integer nor a dash-separated
pair of valid integers after paren-stripping; but start > stop is NOT
an error: such a range succeeds and contributes no operator ids, and in
particular "(8-5)" parses to the empty list. -/
theorem C2_amended_parse_failure :
    (∀ oper : List Char,
      (∃ g ∈ splitOnChar ',' oper, isBareIntSeg g = false ∧ isRangeSeg g = false) →
      parse_opers oper = .error PErr.parseError) ∧
    (∀ (g : List Char) (a b : Int), g.contains '-' = true →
      (splitOnChar '-' (stripParens g)).mapM pyInt = some [a, b] → b < a →
      parse_group g = .ok []) ∧
    parse_opers ("(8-5)".toList) = .ok [] := by
  refine ⟨?_, ?_, rfl⟩
  · rintro oper ⟨g, hg, h1, h2⟩
    exact parse_groups_error hg (parse_group_error_of_invalid h1 h2)
  · intro g a b hc hm hlt
    unfold parse_group
    rw [hc, hm]
    simp [intRange_eq_nil hlt]

/-- Witness for C2's amended statement: the invalid segment "x" makes
"1,x" fail, while the inverted range "(8-5)" is accepted as empty. -/
theorem C2_amended_parse_failure_witness :
    parse_opers ("1,x".toList) = .error PErr.parseError ∧
    parse_group ("(8-5)".toList) = .ok [] := by
  constructor
  · exact C2_amended_parse_failure.1 ("1,x".toList)
      ⟨"x".toList, by decide, by decide, by decide⟩
  · exact C2_amended_parse_failure.2.1 ("(8-5)".toList) 8 5
      (by decide) (by decide) (by decide)

/-- C2 counterexample: contrary to the claim, parsing "(8-5)" does not
fail with a ParseError — range(8, 5 + 1) is empty, so the parse
succeeds, returning the empty id list. -/
theorem C2_counterexample_8_5 :
    parse_opers ("(8-5)".toList) = .ok ([] : List Int) := rfl

/-! ### Lemmas: Python dict lookup -/

theorem pyDictFind_append {α β : Type} [DecidableEq α] (A B : List (α × β)) (k : α) :
    pyDictFind (A ++ B) k = ((pyDictFind B k).or (pyDictFind A k)) := by
  unfold pyDictFind
  rw [List.reverse_append, List.find?_append]
  cases hB : B.reverse.find? (fun p => decide (p.1 = k)) <;> simp [hB, Option.or]

theorem find?_key_const {α β : Type} [DecidableEq α] (l : List α) (v : β) (k : α) :
    (l.map (fun t => (t, v))).find? (fun p => decide (p.1 = k)) =
      if k ∈ l then some (k, v) else none := by
  induction l with
  | nil => simp
  | cons x xs ih =>
    by_cases hx : x = k
    · subst hx
      simp
    · have hpx : (fun p : α × β => decide (p.1 = k)) (x, v) = false := by simp [hx]
      simp only [List.map_cons, List.find?_cons, hpx]
      rw [ih]
      by_cases hk : k ∈ xs
      · simp [hk, List.mem_cons]
      · have hkx : ¬ k = x := fun h => hx h.symm
        have hnk : ¬ (k ∈ x :: xs) := by simp [List.mem_cons, hk, hkx]
        simp [hk, hnk]

theorem pyDictFind_const_map {α β : Type} [DecidableEq α] (l : List α) (v : β) (k : α) :
    pyDictFind (l.map (fun t => (t, v))) k = if k ∈ l then some v else none := by
  unfold pyDictFind
  rw [← List.map_reverse, find?_key_const]
  by_cases hk : k ∈ l
  · simp [hk]
  · simp [hk]

theorem pyDictFind_some_mem {α β : Type} [DecidableEq α] {pairs : List (α × β)} {k : α}
    {v : β} (h : pyDictFind pairs k = some v) : (k, v) ∈ pairs := by
  unfold pyDictFind at h
  cases hf : pairs.reverse.find? (fun p => decide (p.1 = k)) with
  | none => rw [hf] at h; cases h
  | some x =>
    rw [hf] at h
    simp only [Option.map_some'] at h
    have hpx := List.find?_some hf
    have hx1 : x.1 = k := of_decide_eq_true hpx
    have hmem : x ∈ pairs := List.mem_reverse.mp (List.mem_of_find?_eq_some hf)
    cases x with
    | mk a b =>
      cases hx1
      cases h
      exact hmem

theorem pyDictFind_isSome {α β : Type} [DecidableEq α] (pairs : List (α × β)) (k : α) :
    (pyDictFind pairs k).isSome ↔ ∃ v, (k, v) ∈ pairs := by
  constructor
  · intro h
    obtain ⟨v, hv⟩ := Option.isSome_iff_exists.mp h
    exact ⟨v, pyDictFind_some_mem hv⟩
  · rintro ⟨v, hv⟩
    unfold pyDictFind
    have hs : (pairs.reverse.find? (fun p => decide (p.1 = k))).isSome := by
      rw [List.find?_isSome]
      exact ⟨(k, v), List.mem_reverse.mpr hv, by simp⟩
    obtain ⟨x, hx⟩ := Option.isSome_iff_exists.mp hs
    rw [hx]
    rfl

/-! ### Lemmas: the entity lookup -/

theorem entity_pairs_from_none {c : List Char} (groups : List (List Char)) (b : Int)
    (h : ∀ (j : Nat) (s : List Char), groups[j]? = some s → c ∉ splitOnChar ',' s) :
    pyDictFind (entity_pairs_from b groups) c = none := by
  induction groups generalizing b with
  | nil => rfl
  | cons g gs ih =>
    rw [entity_pairs_from, pyDictFind_append]
    rw [ih (b + 1) (fun j s hj => h (j + 1) s (by simpa using hj))]
    rw [pyDictFind_const_map]
    have h0 : c ∉ splitOnChar ',' g := h 0 g (by simp)
    simp [h0, Option.or]

theorem entity_pairs_from_last {c : List Char} (groups : List (List Char)) (b : Int)
    (j : Nat) (s : List Char) (hj : groups[j]? = some s) (hc : c ∈ splitOnChar ',' s)
    (hlater : ∀ (k : Nat) (s2 : List Char), j < k → groups[k]? = some s2 →
      c ∉ splitOnChar ',' s2) :
    pyDictFind (entity_pairs_from b groups) c = some (b + j) := by
  induction groups generalizing b j with
  | nil => simp at hj
  | cons g gs ih =>
    rw [entity_pairs_from, pyDictFind_append]
    cases j with
    | zero =>
      have hg : g = s := by simpa using hj
      subst hg
      have hrest : pyDictFind (entity_pairs_from (b + 1) gs) c = none :=
        entity_pairs_from_none gs (b + 1)
          (fun k s2 hk => hlater (k + 1) s2 (by omega) (by simpa using hk))
      rw [hrest, pyDictFind_const_map]
      simp [hc, Option.or]
    | succ j =>
      have hrec := ih (b + 1) j (by simpa using hj)
        (fun k s2 hk hgk => hlater (k + 1) s2 (by omega) (by simpa using hgk))
      rw [hrec]
      simp only [Option.or]
      congr 1
      push_cast
      ring

theorem entity_pairs_from_mem {p : List Char × Int} (groups : List (List Char)) (b : Int)
    (h : p ∈ entity_pairs_from b groups) :
    ∃ (j : Nat) (s : List Char), groups[j]? = some s ∧ p.1 ∈ splitOnChar ',' s ∧
      p.2 = b + j := by
  induction groups generalizing b with
  | nil => cases h
  | cons g gs ih =>
    rw [entity_pairs_from] at h
    rcases List.mem_append.mp h with h1 | h1
    · obtain ⟨tok, htok, hp⟩ := List.mem_map.mp h1
      exact ⟨0, g, by simp, by rw [← hp]; simpa using htok, by rw [← hp]; simp⟩
    · obtain ⟨j, s, h2, h3, h4⟩ := ih (b + 1) h1
      exact ⟨j + 1, s, by simpa using h2, h3, by rw [h4]; push_cast; ring⟩

theorem mem_entity_pairs_from {c : List Char} (groups : List (List Char)) (b : Int)
    (j : Nat) (s : List Char) (hj : groups[j]? = some s) (hc : c ∈ splitOnChar ',' s) :
    (c, b + (j : Int)) ∈ entity_pairs_from b groups := by
  induction groups generalizing b j with
  | nil => simp at hj
  | cons g gs ih =>
    rw [entity_pairs_from]
    cases j with
    | zero =>
      apply List.mem_append_left
      have hg : g = s := by simpa using hj
      subst hg
      have := List.mem_map_of_mem (fun tok => (tok, b)) hc
      simpa using this
    | succ j =>
      apply List.mem_append_right
      have := ih (b + 1) j (by simpa using hj)
      have he : b + ((j : Int) + 1) = b + 1 + (j : Int) := by ring
      push_cast
      rw [he]
      exact this

/-- C4: for every entity-group table and every atom, the resolver
assigns the atom the index of a group whose comma-split token list
contains the atom's chain id, and assigns -1 exactly when the chain id
appears in no group. -/
theorem C4_entity_assignment (chain_ids atom_chains : List (List Char))
    (i : Nat) (c : List Char) (hi : atom_chains[i]? = some c) :
    ((∀ s ∈ chain_ids, c ∉ splitOnChar ',' s) →
      (get_entity_id chain_ids atom_chains)[i]? = some (-1)) ∧
    ((∃ s ∈ chain_ids, c ∈ splitOnChar ',' s) →
      ∃ (j : Nat) (s : List Char), chain_ids[j]? = some s ∧ c ∈ splitOnChar ',' s ∧
        (get_entity_id chain_ids atom_chains)[i]? = some (j : Int)) := by
  constructor
  · intro h
    have hnone : pyDictFind (entity_pairs_from 0 chain_ids) c = none :=
      entity_pairs_from_none chain_ids 0
        (fun j s hj => h s (List.getElem?_mem hj))
    unfold get_entity_id
    rw [List.getElem?_map, hi]
    simp [entity_pairs, hnone]
  · rintro ⟨s, hs, hcs⟩
    obtain ⟨j0, hj0⟩ := List.mem_iff_getElem?.mp hs
    have hpair : (c, (0 : Int) + (j0 : Int)) ∈ entity_pairs chain_ids :=
      mem_entity_pairs_from chain_ids 0 j0 s hj0 hcs
    have hsome : (pyDictFind (entity_pairs chain_ids) c).isSome :=
      (pyDictFind_isSome _ c).mpr ⟨_, hpair⟩
    obtain ⟨v, hv⟩ := Option.isSome_iff_exists.mp hsome
    obtain ⟨j, s2, hj, hcs2, hval⟩ :=
      entity_pairs_from_mem chain_ids 0 (pyDictFind_some_mem hv)
    refine ⟨j, s2, hj, hcs2, ?_⟩
    unfold get_entity_id
    rw [List.getElem?_map, hi]
    simp only [entity_pairs] at hv
    simp [entity_pairs, hv]
    omega

/-- Witness for C4: with groups "A,B" / "C" / "D,E,F", an atom on the
unlisted chain Z resolves to -1. -/
theorem C4_entity_assignment_witness :
    (get_entity_id ["A,B".toList, "C".toList, "D,E,F".toList] ["Z".toList])[0]? =
      some (-1) :=
  (C4_entity_assignment ["A,B".toList, "C".toList, "D,E,F".toList] ["Z".toList]
    0 ("Z".toList) rfl).1 (by decide)

/-- C10: when a chain token occurs in the strings of several entity
groups, every atom on that chain receives the index of the last group
listing it: dict(zip(chains, idx)) lets later pairs overwrite earlier
ones. -/
theorem C10_entity_last_group_wins (chain_ids atom_chains : List (List Char))
    (j : Nat) (s c : List Char)
    (hj : chain_ids[j]? = some s) (hc : c ∈ splitOnChar ',' s)
    (hdup : ∃ k s2, k < j ∧ chain_ids[k]? = some s2 ∧ c ∈ splitOnChar ',' s2)
    (hlater : ∀ k, k < chain_ids.length → j < k →
      c ∉ splitOnChar ',' (chain_ids.getD k []))
    (i : Nat) (hi : atom_chains[i]? = some c) :
    (get_entity_id chain_ids atom_chains)[i]? = some (j : Int) := by
  have hlater2 : ∀ k s2, j < k → chain_ids[k]? = some s2 → c ∉ splitOnChar ',' s2 := by
    intro k s2 hk hgk
    have hlen : k < chain_ids.length := by
      by_contra hge
      rw [List.getElem?_eq_none (by omega)] at hgk
      cases hgk
    have hgd : chain_ids.getD k [] = s2 := by
      rw [List.getD_eq_getElem?_getD, hgk]
      rfl
    have := hlater k hlen hk
    rwa [hgd] at this
  have hfind := entity_pairs_from_last chain_ids 0 j s hj hc hlater2
  unfold get_entity_id
  rw [List.getElem?_map, hi]
  simp [entity_pairs, hfind]

/-- Witness for C10: chain B is listed in groups 0 ("A,B") and 1 ("B");
an atom on chain B resolves to the later group, index 1. -/
theorem C10_entity_last_group_wins_witness :
    (get_entity_id ["A,B".toList, "B".toList] ["B".toList])[0]? = some 1 :=
  C10_entity_last_group_wins ["A,B".toList, "B".toList] ["B".toList]
    1 ("B".toList) ("B".toList) rfl (by decide)
    ⟨0, "A,B".toList, by omega, rfl, by decide⟩ (by decide) 0 rfl

/-! ### Lemmas: the secondary-structure lookup -/

theorem mem_intRange {a b r : Int} : r ∈ intRange a b ↔ a ≤ r ∧ r ≤ b := by
  unfold intRange
  rw [List.mem_map]
  constructor
  · rintro ⟨k, hk, rfl⟩
    rw [List.mem_range] at hk
    omega
  · rintro ⟨h1, h2⟩
    refine ⟨(r - a).toNat, ?_, ?_⟩
    · rw [List.mem_range]
      omega
    · omega

theorem pyDictFind_expandRange (row : SSRow) (r : Int) :
    pyDictFind (expandRange row) r =
      if coversB row r then some row.labelInt else none := by
  unfold expandRange
  rw [pyDictFind_const_map]
  by_cases hc : row.start ≤ r ∧ r ≤ row.stop
  · rw [if_pos (mem_intRange.mpr hc), if_pos (by simp [coversB, hc.1, hc.2])]
  · rw [if_neg (fun hm => hc (mem_intRange.mp hm)), if_neg ?hneg]
    case hneg =>
      intro hcov
      unfold coversB at hcov
      simp only [Bool.and_eq_true, decide_eq_true_eq] at hcov
      exact hc hcov

theorem pyDictFind_flatten_expand (L : List SSRow) (r : Int) :
    pyDictFind ((L.map expandRange).flatten) r =
      ((L.reverse.find? (fun row => coversB row r)).map (fun row => row.labelInt)) := by
  induction L with
  | nil => rfl
  | cons row rest ih =>
    simp only [List.map_cons, List.flatten_cons, List.reverse_cons]
    rw [pyDictFind_append, ih, List.find?_append]
    cases hfind : rest.reverse.find? (fun row => coversB row r) with
    | some q => simp [Option.or]
    | none =>
      rw [pyDictFind_expandRange]
      cases hc : coversB row r <;> simp [Option.or, List.find?, hc]

theorem chainPairs_find (rows : List SSRow) (c : List Char) (r : Int) :
    pyDictFind (chainPairs rows c) r =
      ((rows.filter (fun row => decide (row.chain = c))).reverse.find?
        (fun row => coversB row r)).map (fun row => row.labelInt) := by
  unfold chainPairs
  exact pyDictFind_flatten_expand _ r

theorem getElem?_zip_of_both {α β : Type} (l : List α) (m : List β) (i : Nat) {a : α}
    {b : β} (ha : l[i]? = some a) (hb : m[i]? = some b) :
    (l.zip m)[i]? = some (a, b) := by
  induction l generalizing m i with
  | nil => simp at ha
  | cons x xs ih =>
    cases m with
    | nil => simp at hb
    | cons y ys =>
      cases i with
      | zero =>
        simp only [List.getElem?_cons_zero, Option.some_inj] at ha hb
        subst ha
        subst hb
        simp [List.zip_cons_cons]
      | succ j =>
        simp only [List.getElem?_cons_succ] at ha hb
        simpa [List.zip_cons_cons] using ih ys j ha hb

theorem secondary_structure_getElem (rows : List SSRow)
    (atoms : List (List Char × Int)) (aa : List Bool) (i : Nat) (c : List Char)
    (r : Int) (b : Bool) (hi : atoms[i]? = some (c, r)) (hb : aa[i]? = some b) :
    (secondary_structure rows atoms aa)[i]? =
      some (if b then ss_for_atom rows c r else 0) := by
  unfold secondary_structure
  rw [List.getElem?_map, getElem?_zip_of_both atoms aa i hi hb]
  rfl

/-- C5: the final per-atom label is 0 for a non-peptide atom; 0 when the
atom's chain occurs in no declared range row; the label the lookup dict
records for (chain, residue) when one exists; and the Loop default 3
when the chain has rows but none of its ranges covers the residue. -/
theorem C5_ss_atom_label (rows : List SSRow) (atoms : List (List Char × Int))
    (aa : List Bool) (i : Nat) (c : List Char) (r : Int) (b : Bool)
    (hi : atoms[i]? = some (c, r)) (hb : aa[i]? = some b) :
    (b = false → (secondary_structure rows atoms aa)[i]? = some 0) ∧
    ((∀ row ∈ rows, row.chain ≠ c) →
      (secondary_structure rows atoms aa)[i]? = some 0) ∧
    (b = true → ∀ l : Int, pyDictFind (chainPairs rows c) r = some l →
      (secondary_structure rows atoms aa)[i]? = some l) ∧
    (b = true → (∃ row ∈ rows, row.chain = c) →
      (∀ row ∈ rows, row.chain = c → coversB row r = false) →
      (secondary_structure rows atoms aa)[i]? = some 3) := by
  have hbase := secondary_structure_getElem rows atoms aa i c r b hi hb
  refine ⟨?_, ?_, ?_, ?_⟩
  · rintro rfl
    simpa using hbase
  · intro h
    have hany : rows.any (fun row => decide (row.chain = c)) = false := by
      simp only [List.any_eq_false, decide_eq_true_eq]
      exact h
    rw [hbase]
    unfold ss_for_atom
    rw [hany]
    cases b <;> simp
  · rintro rfl l hl
    rw [hbase]
    have hmem : (r, l) ∈ chainPairs rows c := pyDictFind_some_mem hl
    have hany : rows.any (fun row => decide (row.chain = c)) = true := by
      unfold chainPairs at hmem
      obtain ⟨block, hblock, hrl⟩ := List.mem_flatten.mp hmem
      obtain ⟨row, hrow, rfl⟩ := List.mem_map.mp hblock
      have := List.mem_filter.mp hrow
      exact List.any_eq_true.mpr ⟨row, this.1, this.2⟩
    unfold ss_for_atom
    rw [hany, hl]
    simp
  · rintro rfl ⟨row0, hrow0, hchain0⟩ hnone
    rw [hbase]
    have hany : rows.any (fun row => decide (row.chain = c)) = true :=
      List.any_eq_true.mpr ⟨row0, hrow0, by simp [hchain0]⟩
    have hfind : pyDictFind (chainPairs rows c) r = none := by
      rw [chainPairs_find]
      rw [List.find?_eq_none.mpr]
      · rfl
      · intro q hq
        have hq2 := List.mem_filter.mp (List.mem_reverse.mp hq)
        have := hnone q hq2.1 (by simpa using hq2.2)
        simp [this]
    unfold ss_for_atom
    rw [hany, hfind]
    simp

/-- Witness for C5: one helix row on chain A covering residues 5-10; a
peptide atom at (A, 7) receives the recorded label 1. -/
theorem C5_ss_atom_label_witness :
    (secondary_structure [⟨5, 10, ['A'], 1⟩] [(['A'], 7)] [true])[0]? = some 1 :=
  (C5_ss_atom_label [⟨5, 10, ['A'], 1⟩] [(['A'], 7)] [true] 0 ['A'] 7 true
    (by decide) (by decide)).2.2.1 rfl 1 (by decide)

/-- C6: in the per-chain residue dict, when several ranges of the same
chain cover a residue, the stored label is the one of the range
processed later in declaration order, independent of the classes. -/
theorem C6_last_range_wins (pre post : List SSRow) (row2 : SSRow) (c : List Char)
    (r : Int) (hchain : row2.chain = c) (hcov : coversB row2 r = true)
    (hdup : ∃ row1 ∈ pre, row1.chain = c ∧ coversB row1 r = true)
    (hlater : ∀ q ∈ post, q.chain = c → coversB q r = false) :
    pyDictFind (chainPairs (pre ++ row2 :: post) c) r = some row2.labelInt := by
  rw [chainPairs_find, List.filter_append, List.filter_cons]
  rw [if_pos (by simp [hchain])]
  rw [List.reverse_append, List.reverse_cons, List.find?_append, List.find?_append]
  have hpost : (post.filter (fun row => decide (row.chain = c))).reverse.find?
      (fun row => coversB row r) = none := by
    rw [List.find?_eq_none]
    intro q hq
    have hq2 := List.mem_filter.mp (List.mem_reverse.mp hq)
    simp [hlater q hq2.1 (by simpa using hq2.2)]
  rw [hpost]
  simp [List.find?, hcov, Option.or]

/-- Witness for C6: a helix row 1-10 then a sheet row 5-12 on chain A;
at residue 7 the later row's class 2 is stored. -/
theorem C6_last_range_wins_witness :
    pyDictFind (chainPairs [⟨1, 10, ['A'], 1⟩, ⟨5, 12, ['A'], 2⟩] ['A']) 7 = some 2 :=
  C6_last_range_wins [⟨1, 10, ['A'], 1⟩] [] ⟨5, 12, ['A'], 2⟩ ['A'] 7 rfl (by decide)
    ⟨⟨1, 10, ['A'], 1⟩, by simp, rfl, by decide⟩ (by simp)

/-! ### Lemmas: operator id → matrix index map -/

theorem zip_getElem?_inv {α β : Type} {l : List α} {m : List β} {j : Nat} {x : α}
    {y : β} (h : (l.zip m)[j]? = some (x, y)) : l[j]? = some x ∧ m[j]? = some y := by
  induction l generalizing m j with
  | nil => simp at h
  | cons a as ih =>
    cases m with
    | nil => simp [List.zip] at h
    | cons b bs =>
      cases j with
      | zero =>
        simp only [List.zip_cons_cons, List.getElem?_cons_zero, Option.some_inj,
          Prod.mk.injEq] at h
        exact ⟨by simp [h.1], by simp [h.2]⟩
      | succ n =>
        simp only [List.zip_cons_cons, List.getElem?_cons_succ] at h ⊢
        exact ih h

theorem zip_range_getElem? {α : Type} (l : List α) (j : Nat) (a : α)
    (h : l[j]? = some a) : (l.zip (List.range l.length))[j]? = some (a, j) := by
  have hj : j < l.length := (List.getElem?_eq_some_iff.mp h).1
  have hr : (List.range l.length)[j]? = some j := by simp [hj]
  exact getElem?_zip_of_both l (List.range l.length) j h hr

theorem mat_lookup_eq (ids : List Int) (k : Nat) (i : Int) (hnodup : ids.Nodup)
    (hk : ids[k]? = some i) : mat_lookup ids i = some k := by
  unfold mat_lookup
  have hmem : (i, k) ∈ ids.zip (List.range ids.length) :=
    List.getElem?_mem (zip_range_getElem? ids k i hk)
  have hsome : (pyDictFind (ids.zip (List.range ids.length)) i).isSome :=
    (pyDictFind_isSome _ i).mpr ⟨k, hmem⟩
  obtain ⟨v, hv⟩ := Option.isSome_iff_exists.mp hsome
  have hvmem : (i, v) ∈ ids.zip (List.range ids.length) := pyDictFind_some_mem hv
  obtain ⟨j, hj⟩ := List.mem_iff_getElem?.mp hvmem
  obtain ⟨hj1, hj2⟩ := zip_getElem?_inv hj
  have hvj : v = j := by
    have hjlen : j < (List.range ids.length).length :=
      (List.getElem?_eq_some_iff.mp hj2).1
    simp only [List.length_range] at hjlen
    rw [List.getElem?_range hjlen] at hj2
    exact (Option.some_inj.mp hj2).symm
  subst hvj
  have hkj : k = v := by
    have hklen : k < ids.length := (List.getElem?_eq_some_iff.mp hk).1
    have hvlen : v < ids.length := (List.getElem?_eq_some_iff.mp hj1).1
    have : ids[k] = ids[v] := by
      have h1 := List.getElem?_eq_some_iff.mp hk
      have h2 := List.getElem?_eq_some_iff.mp hj1
      rw [h1.2, h2.2]
    exact (List.Nodup.getElem_inj_iff hnodup).mp this
  rw [hv, hkj]

theorem intRange_nodup (a b : Int) : (intRange a b).Nodup := by
  unfold intRange
  exact (List.nodup_range _).map (fun x y h => by omega)

theorem intRange_length (a b : Int) : (intRange a b).length = (b + 1 - a).toNat := by
  simp [intRange]

theorem intRange_getElem? (a b : Int) (k : Nat) (hk : k < (b + 1 - a).toNat) :
    (intRange a b)[k]? = some (a + (k : Int)) := by
  simp [intRange, hk]

/-- The id column of the spec's gap example: ids 1..11 and 13..n, with
id 12 never declared. -/
def gapIds (n : Int) : List Int := intRange 1 11 ++ intRange 13 n

theorem gapIds_nodup (n : Int) : (gapIds n).Nodup := by
  unfold gapIds
  apply List.Nodup.append (intRange_nodup 1 11) (intRange_nodup 13 n)
  intro x hx hy
  rw [mem_intRange] at hx hy
  omega

theorem gapIds_getElem_low (n i : Int) (h1 : 1 ≤ i) (h2 : i ≤ 11) :
    (gapIds n)[(i - 1).toNat]? = some i := by
  unfold gapIds
  rw [List.getElem?_append]
  rw [if_pos (by rw [intRange_length]; omega)]
  rw [intRange_getElem? 1 11 _ (by omega)]
  congr 1
  omega

theorem gapIds_getElem_high (n i : Int) (h1 : 13 ≤ i) (h2 : i ≤ n) :
    (gapIds n)[(i - 2).toNat]? = some i := by
  unfold gapIds
  rw [List.getElem?_append]
  rw [if_neg (by rw [intRange_length]; omega)]
  rw [intRange_length, intRange_getElem? 13 n _ (by omega)]
  congr 1
  omega

/-- C7: with distinct declared operator ids, the k-th declared id maps
to matrix index k by direct dict lookup; on the spec's gap example
(ids 1..11 and 13..n, id 12 missing) ids below the gap map to rows
id - 1 and ids above it to rows id - 2, with no off-by-one shift. -/
theorem C7_mat_lookup_direct :
    (∀ (ids : List Int) (k : Nat) (i : Int), ids.Nodup → ids[k]? = some i →
      mat_lookup ids i = some k) ∧
    (∀ n : Int, 13 ≤ n →
      (∀ i : Int, 1 ≤ i → i ≤ 11 → mat_lookup (gapIds n) i = some (i - 1).toNat) ∧
      (∀ i : Int, 13 ≤ i → i ≤ n → mat_lookup (gapIds n) i = some (i - 2).toNat)) := by
  refine ⟨mat_lookup_eq, ?_⟩
  intro n _
  constructor
  · intro i h1 h2
    exact mat_lookup_eq (gapIds n) (i - 1).toNat i (gapIds_nodup n)
      (gapIds_getElem_low n i h1 h2)
  · intro i h1 h2
    exact mat_lookup_eq (gapIds n) (i - 2).toNat i (gapIds_nodup n)
      (gapIds_getElem_high n i h1 h2)

/-- Witness for C7 at the spec's numbers: with 18023 ids declared out of
1..18024 (12 missing), id 18024 resolves to row 18022 and id 11 to
row 10. -/
theorem C7_mat_lookup_direct_witness :
    mat_lookup (gapIds 18024) 18024 = some 18022 ∧
    mat_lookup (gapIds 18024) 11 = some 10 := by
  constructor
  · have h := (C7_mat_lookup_direct.2 18024 (by norm_num)).2 18024 (by norm_num) le_rfl
    rw [show ((18024 : Int) - 2).toNat = 18022 from by decide] at h
    exact h
  · have h := (C7_mat_lookup_direct.2 18024 (by norm_num)).1 11 (by norm_num) le_rfl
    rw [show ((11 : Int) - 1).toNat = 10 from by decide] at h
    exact h

/-- C1 (code bug): the scatter loop of _extract_matrices writes only
rows 0-2; the bottom row of every matrix keeps whatever the np.empty
allocation contained, and in particular need not be [0,0,0,1]. -/
theorem C1_bottom_row_uninitialized :
    (∀ (cols : Fin 12 → List ℚ) (empty : Nat → Mat4) (k : Nat),
      k < (cols 0).length → ∀ c : Fin 4,
      ((extract_matrices cols empty).getD k (fun _ _ => 0)) 3 c = empty k 3 c) ∧
    ¬ (((extract_matrices (fun _ => [0]) (fun _ _ _ => 5)).getD 0 (fun _ _ => 0)) 3 0 = 0 ∧
       ((extract_matrices (fun _ => [0]) (fun _ _ _ => 5)).getD 0 (fun _ _ => 0)) 3 1 = 0 ∧
       ((extract_matrices (fun _ => [0]) (fun _ _ _ => 5)).getD 0 (fun _ _ => 0)) 3 2 = 0 ∧
       ((extract_matrices (fun _ => [0]) (fun _ _ _ => 5)).getD 0 (fun _ _ => 0)) 3 3 = 1) := by
  constructor
  · intro cols empty k hk c
    unfold extract_matrices
    rw [List.getD_eq_getElem?_getD, List.getElem?_map, List.getElem?_range hk]
    rfl
  · intro hcontra
    have h33 := hcontra.2.2.2
    have : ((extract_matrices (fun _ => [0]) (fun _ _ _ => 5)).getD 0
        (fun _ _ => 0)) 3 3 = 5 := rfl
    rw [this] at h33
    norm_num at h33

/-- Witness for C1: on a one-row table whose empty allocation holds 5
everywhere, the produced bottom row entry (3,3) is 5, not 1. -/
theorem C1_bottom_row_uninitialized_witness :
    ((extract_matrices (fun _ => [0]) (fun _ _ _ => 5)).getD 0 (fun _ _ => 0)) 3 3 = 5 :=
  C1_bottom_row_uninitialized.1 (fun _ => [0]) (fun _ _ _ => 5) 0 (by decide) 3

/-! ### Lemmas: the assembly dict -/

/-- Lookup in the key-unique dict representation maintained by
pyDictSet. -/
def pyDictGet {α β : Type} [DecidableEq α] (d : List (α × β)) (k : α) : Option β :=
  (d.find? (fun p => decide (p.1 = k))).map (fun p => p.2)

theorem pyDictGet_nil {α β : Type} [DecidableEq α] (a : α) :
    pyDictGet ([] : List (α × β)) a = none := rfl

theorem pyDictGet_cons {α β : Type} [DecidableEq α] (x : α) (y : β)
    (rest : List (α × β)) (a : α) :
    pyDictGet ((x, y) :: rest) a = if x = a then some y else pyDictGet rest a := by
  unfold pyDictGet
  rw [List.find?_cons]
  by_cases hx : x = a <;> simp [hx]

theorem pyDictGet_append {α β : Type} [DecidableEq α] (d e : List (α × β)) (a : α) :
    pyDictGet (d ++ e) a = ((pyDictGet d a).or (pyDictGet e a)) := by
  unfold pyDictGet
  rw [List.find?_append]
  cases hd : d.find? (fun p => decide (p.1 = a)) <;> simp [Option.or]

theorem pyDictGet_none_of_no_key {α β : Type} [DecidableEq α] (d : List (α × β))
    (k : α) (h : d.any (fun p => decide (p.1 = k)) = false) : pyDictGet d k = none := by
  unfold pyDictGet
  rw [List.find?_eq_none.mpr]
  · rfl
  · intro p hp
    simp only [List.any_eq_false] at h
    exact h p hp

theorem pyDictGet_map_set {α β : Type} [DecidableEq α] (d : List (α × β)) (k : α)
    (v : β) (a : α) :
    pyDictGet (d.map (fun p => if p.1 = k then (k, v) else p)) a =
      if a = k then (if d.any (fun p => decide (p.1 = k)) then some v else none)
      else pyDictGet d a := by
  induction d with
  | nil => by_cases ha : a = k <;> simp [pyDictGet_nil, ha]
  | cons p rest ih =>
    obtain ⟨x, y⟩ := p
    by_cases hp : x = k
    · subst hp
      rw [List.map_cons]
      have hhead : (if ((x, y) : α × β).1 = x then (x, v) else (x, y)) = (x, v) := by
        simp
      rw [hhead, pyDictGet_cons, List.any_cons]
      by_cases ha : a = x
      · subst ha
        simp
      · have hxa : ¬ x = a := fun h => ha h.symm
        rw [if_neg hxa, if_neg ha, ih, if_neg ha, pyDictGet_cons, if_neg hxa]
    · rw [List.map_cons]
      have hhead : (if ((x, y) : α × β).1 = k then (k, v) else (x, y)) = (x, y) := by
        simp [hp]
      rw [hhead, pyDictGet_cons, List.any_cons]
      have hdec : decide (x = k) = false := by simp [hp]
      rw [hdec, Bool.false_or]
      by_cases hx : x = a
      · subst hx
        rw [if_pos rfl, if_neg hp, pyDictGet_cons, if_pos rfl]
      · rw [if_neg hx, ih]
        by_cases hak : a = k
        · rw [if_pos hak, if_pos hak]
        · rw [if_neg hak, if_neg hak, pyDictGet_cons, if_neg hx]

theorem pyDictGet_set {α β : Type} [DecidableEq α] (d : List (α × β)) (k : α) (v : β)
    (a : α) : pyDictGet (pyDictSet d k v) a = if a = k then some v else pyDictGet d a := by
  unfold pyDictSet
  by_cases hany : d.any (fun p => decide (p.1 = k)) = true
  · rw [if_pos hany, pyDictGet_map_set, hany]
    by_cases ha : a = k <;> simp [ha]
  · rw [if_neg hany, pyDictGet_append]
    have hfalse : d.any (fun p => decide (p.1 = k)) = false :=
      Bool.eq_false_iff.mpr hany
    by_cases ha : a = k
    · subst ha
      rw [pyDictGet_none_of_no_key d a hfalse]
      simp [pyDictGet_cons, Option.or]
    · rw [pyDictGet_cons, if_neg (fun h => ha h.symm), pyDictGet_nil]
      cases pyDictGet d a <;> simp [ha, Option.or]

theorem assembliesAux_get (ids : List Int) (mats : List Mat4) (rows : List GenRow)
    (dic0 dic : List (Int × List (List (List Char) × Mat4))) (a : Int)
    (h : assembliesAux ids mats dic0 rows = .ok dic) :
    pyDictGet dic a =
      match rows.reverse.find? (fun row => decide (row.assembly_id = a)) with
      | some row => (row_trans ids mats row).toOption
      | none => pyDictGet dic0 a := by
  induction rows generalizing dic0 with
  | nil =>
    unfold assembliesAux at h
    cases h
    simp
  | cons r rs ih =>
    unfold assembliesAux at h
    cases htr : row_trans ids mats r with
    | error e => rw [htr] at h; cases h
    | ok tr =>
      rw [htr] at h
      have hrec := ih (pyDictSet dic0 r.assembly_id tr) h
      rw [hrec, List.reverse_cons, List.find?_append]
      cases hfind : rs.reverse.find? (fun row => decide (row.assembly_id = a)) with
      | some q => simp [Option.or]
      | none =>
        have hsingle : List.find? (fun row => decide (row.assembly_id = a)) [r] =
            if r.assembly_id = a then some r else none := by
          rw [List.find?_cons]
          by_cases hra : r.assembly_id = a <;> simp [hra]
        rw [hsingle, pyDictGet_set]
        by_cases hra : r.assembly_id = a
        · rw [if_pos hra, if_pos hra.symm]
          simp [Option.or, htr, Except.toOption]
        · rw [if_neg hra, if_neg (fun hh => hra hh.symm)]
          simp [Option.or]

/-- C8 counterexample: two generation rows declare assembly 1, the
first with chain list A, the second with chain list B; in the result
assembly 1 holds only the second row's pair — the first row's pair with
chain A is lost, contradicting the claimed accumulation. -/
theorem C8_counterexample_row_overwrite :
    ((assemblies [1] [(fun _ _ => 0)]
        [⟨1, "1".toList, "A".toList⟩, ⟨1, "1".toList, "B".toList⟩]).map
      (fun d => (pyDictGet d 1).map (fun tr => tr.map Prod.fst))) =
      .ok (some [[['B']]]) := rfl

/-- C8 amended: within one generation row all pairs are kept in operator
order (they are exactly row_trans of that row), but across rows sharing
an assembly id the dict entry is overwritten, so the id maps to the
LAST declaring row's pairs, and earlier rows' pairs are lost. -/
theorem C8_amended_last_row_per_assembly (ids : List Int) (mats : List Mat4)
    (rows : List GenRow) (dic : List (Int × List (List (List Char) × Mat4)))
    (a : Int) (h : assemblies ids mats rows = .ok dic) :
    (∀ row : GenRow,
      rows.reverse.find? (fun q => decide (q.assembly_id = a)) = some row →
      pyDictGet dic a = (row_trans ids mats row).toOption) ∧
    (rows.reverse.find? (fun q => decide (q.assembly_id = a)) = none →
      pyDictGet dic a = none) := by
  have hmain := assembliesAux_get ids mats rows [] dic a h
  constructor
  · intro row hrow
    rw [hmain, hrow]
  · intro hnone
    rw [hmain, hnone]
    rfl

/-- Witness for C8's amended statement on the two-row example: assembly
1 resolves exactly to the second row's transformation list. -/
theorem C8_amended_last_row_per_assembly_witness :
    pyDictGet [((1 : Int), [([['B']], ((fun _ _ => 0) : Mat4))])] 1 =
      (row_trans [1] [(fun _ _ => 0)] ⟨1, "1".toList, "B".toList⟩).toOption :=
  (C8_amended_last_row_per_assembly [1] [(fun _ _ => 0)]
    [⟨1, "1".toList, "A".toList⟩, ⟨1, "1".toList, "B".toList⟩]
    [((1 : Int), [([['B']], ((fun _ _ => 0) : Mat4))])] 1 rfl).1
    ⟨1, "1".toList, "B".toList⟩ rfl

/-- C9: structure extraction tolerates the absence of struct_conf and of
the entity category independently: the base atom array is always
returned, each annotation is present exactly when its category is, and
an absent category yields the corresponding warning with the annotation
omitted. -/
theorem C9_recoverable_absence (block : Block) (arr : AtomArr) :
    ((get_structure block arr).1.base = arr) ∧
    ((get_structure block arr).1.sec_struct.isSome = block.struct_conf.isSome) ∧
    ((get_structure block arr).1.entity_id.isSome =
      block.entity_poly_strand_id.isSome) ∧
    (block.struct_conf = none →
      (get_structure block arr).1.sec_struct = none ∧
      "No secondary structure information." ∈ (get_structure block arr).2) ∧
    (block.entity_poly_strand_id = none →
      (get_structure block arr).1.entity_id = none ∧
      "No entity ID information" ∈ (get_structure block arr).2) := by
  unfold get_structure get_secondary_structure get_entity_id_of_block
  cases hc : block.struct_conf <;> cases he : block.entity_poly_strand_id <;>
    simp [hc, he]

/-- Witness for C9: a block with struct_conf absent but the entity
category present still yields an array, warns about secondary
structure, and keeps the entity annotation. -/
theorem C9_recoverable_absence_witness :
    (get_structure ⟨none, none, some []⟩ ⟨[], [], []⟩).1.sec_struct = none ∧
    "No secondary structure information." ∈
      (get_structure ⟨none, none, some []⟩ ⟨[], [], []⟩).2 ∧
    (get_structure ⟨none, none, some []⟩ ⟨[], [], []⟩).1.entity_id.isSome = true := by
  have h := C9_recoverable_absence ⟨none, none, some []⟩ ⟨[], [], []⟩
  exact ⟨(h.2.2.2.1 rfl).1, (h.2.2.2.1 rfl).2, by rw [h.2.2.1]; rfl⟩

end MolecularNodes
